import Mathlib

/-!
Shallow embedding of the two sparse-Merkle-tree variants of the repository:
`src/smt.rs` (content-addressed, namespace `Smt`) and `src/smt_solana.rs`
(position-addressed, namespace `SmtSolana`).

Modelling choices:
- a digest (`solana_hash::Hash`, 32 bytes) is a list of naturals; the all-zero
  digest `Hash::default()` is `List.replicate 32 0`;
- the SHA-256 primitive underlying `solana_sha256_hasher::hashv` is an abstract
  parameter `sha : List Nat → Hash`; since `hashv` hashes the concatenation of
  its input slices, `hashv(&[a, b])` is embedded as `sha (a ++ b)`;
- `HashMap` is a function into `Option`, updated pointwise;
- `u64` counters are naturals reduced modulo `2 ^ 64` where the code increments
  them (Rust release-mode wrapping semantics);
- `bincode::serialize` for the fixed-shape record types is embedded from the
  bincode 1.x format (little-endian fixed-width integers, `u64` length prefix
  for byte vectors, raw bytes for 32-byte arrays, one byte for `bool`); its
  `Result` return type is kept as `Option`, with `none` standing for the error
  branch that `unwrap` would turn into a panic.
-/

namespace MerkleSvm

/-- A digest: byte list standing for the 32-byte `solana_hash::Hash`. -/
abbrev Hash := List Nat

/-- A public key: byte list standing for the 32-byte `Pubkey`. -/
abbrev Pubkey := List Nat

/-- The digest `Hash::default()`: 32 zero bytes. -/
def hashDefault : Hash := List.replicate 32 0

/-- Pointwise insertion into a map modelled as a function to `Option`,
embedding `HashMap::insert`. -/
def mapInsert {α β : Type} [DecidableEq α] (m : α → Option β) (k : α) (v : β) :
    α → Option β :=
  fun k2 => if k2 = k then some v else m k2

/-- Little-endian 8-byte encoding of a `u64` (bincode 1.x fixed-int format). -/
def u64le (n : Nat) : List Nat := List.ofFn fun i : Fin 8 => n / 256 ^ i.val % 256

namespace Smt

/-- The record type of the content-addressed variant: `solana_sdk::account::Account`
with fields in declaration order (`lamports`, `data`, `owner`, `executable`,
`rent_epoch`). -/
structure Account where
  lamports : Nat
  data : List Nat
  owner : Pubkey
  executable : Bool
  rent_epoch : Nat

deriving instance DecidableEq for Account

/-- Embedding of `bincode::serialize(account)` as total byte production:
lamports, length-prefixed data, raw 32-byte owner, bool byte, rent epoch. -/
def serAccountBytes (a : Account) : List Nat :=
  u64le a.lamports ++ (u64le a.data.length ++ a.data) ++ a.owner ++
    (if a.executable then [1] else [0]) ++ u64le a.rent_epoch

/-- Embedding of bincode writing a `u64`: infallible in the library. -/
def serU64 (n : Nat) : Option (List Nat) := some (u64le n)

/-- Embedding of bincode writing a `Vec of u8`: a `u64` length then the raw
bytes; infallible in the library. -/
def serByteVec (d : List Nat) : Option (List Nat) := some (u64le d.length ++ d)

/-- Embedding of bincode writing a `Pubkey` (a 32-byte array, written raw);
infallible in the library. -/
def serPubkey (p : Pubkey) : Option (List Nat) := some p

/-- Embedding of bincode writing a `bool` as a single byte; infallible in the
library. -/
def serBool (b : Bool) : Option (List Nat) := some (if b then [1] else [0])

/-- Embedding of `bincode::serialize` on `Account`, with the fallible `Result`
signature of the library kept as `Option`. -/
def serAccount (a : Account) : Option (List Nat) :=
  (serU64 a.lamports).bind fun x1 =>
  (serByteVec a.data).bind fun x2 =>
  (serPubkey a.owner).bind fun x3 =>
  (serBool a.executable).bind fun x4 =>
  (serU64 a.rent_epoch).bind fun x5 =>
  some (x1 ++ x2 ++ x3 ++ x4 ++ x5)

/-- The content-addressed tree of `src/smt.rs`: internal node map, leaf map
and root. -/
structure SparseMerkleTree where
  nodes : Hash → Option Hash
  leaves : Hash → Option Hash
  root : Hash

/-- The constant `SparseMerkleTree::ZERO_HASH`: 32 zero bytes. -/
def ZERO_HASH : Hash := List.replicate 32 0

/-- Embedding of `SparseMerkleTree::new`. -/
def SparseMerkleTree.new : SparseMerkleTree :=
  { nodes := fun _ => none, leaves := fun _ => none, root := hashDefault }

/-- Embedding of `hash_account`: hash of the serialized account bytes. -/
def hash_account (sha : List Nat → Hash) (account : Account) : Hash :=
  sha (serAccountBytes account)

/-- Embedding of `hash_key`: hash of the raw pubkey bytes. -/
def hash_key (sha : List Nat → Hash) (pubkey : Pubkey) : Hash :=
  sha pubkey

/-- Embedding of `hash_nodes`: hash of the two digests concatenated in order. -/
def hash_nodes (sha : List Nat → Hash) (left right : Hash) : Hash :=
  sha (left ++ right)

/-- The leaf value `insert` computes: `ZERO_HASH` for an empty account
(zero lamports and empty data), otherwise `hash_account`. -/
def leafValue (sha : List Nat → Hash) (account : Account) : Hash :=
  if account.lamports = 0 ∧ account.data = [] then ZERO_HASH
  else hash_account sha account

/-- Embedding of the loop body of `update_path`, with explicit fuel: at each
step read the sibling at the current key, combine by first-byte parity,
record the pre-combination child value at the current key, and derive the
next key as `hash_nodes(key, Hash::default())`; returns the final node map
and the final running value. -/
def updatePathAux (sha : List Nat → Hash) :
    Nat → Hash → Hash → (Hash → Option Hash) → (Hash → Option Hash) × Hash
  | 0, _, value, nodes => (nodes, value)
  | n + 1, key, value, nodes =>
    let sibling := (nodes key).getD hashDefault
    let parent_hash :=
      if key.headD 0 &&& 1 = 0 then hash_nodes sha value sibling
      else hash_nodes sha sibling value
    updatePathAux sha n (hash_nodes sha key hashDefault) parent_hash
      (mapInsert nodes key value)

/-- Embedding of `SparseMerkleTree::update_path`: 256 iterations, then the
root is overwritten with the final value. -/
def SparseMerkleTree.update_path (sha : List Nat → Hash) (t : SparseMerkleTree)
    (key value : Hash) : SparseMerkleTree :=
  let r := updatePathAux sha 256 key value t.nodes
  { t with nodes := r.1, root := r.2 }

/-- Embedding of `SparseMerkleTree::insert`: compute the leaf key and leaf
value, return unchanged when the stored leaf digest is `ZERO_HASH`, else store
the leaf value and run `update_path` exactly when the value is non-zero. -/
def SparseMerkleTree.insert (sha : List Nat → Hash) (t : SparseMerkleTree)
    (pubkey : Pubkey) (account : Account) : SparseMerkleTree :=
  let leaf_key := hash_key sha pubkey
  let leaf_hash := leafValue sha account
  if t.leaves leaf_key = some ZERO_HASH then t
  else
    let t1 := { t with leaves := mapInsert t.leaves leaf_key leaf_hash }
    if leaf_hash ≠ ZERO_HASH then SparseMerkleTree.update_path sha t1 leaf_key leaf_hash
    else t1

/-- Embedding of `SparseMerkleTree::insert` with the fallible serialization
step kept explicit: `none` is the panic of `serialize(account).unwrap()`. -/
def SparseMerkleTree.insertE (sha : List Nat → Hash) (t : SparseMerkleTree)
    (pubkey : Pubkey) (account : Account) : Option SparseMerkleTree :=
  let leaf_key := hash_key sha pubkey
  let leaf_hash? :=
    if account.lamports = 0 ∧ account.data = [] then some ZERO_HASH
    else (serAccount account).map fun bs => sha bs
  match leaf_hash? with
  | none => none
  | some leaf_hash =>
    some
      (if t.leaves leaf_key = some ZERO_HASH then t
       else
         let t1 := { t with leaves := mapInsert t.leaves leaf_key leaf_hash }
         if leaf_hash ≠ ZERO_HASH then
           SparseMerkleTree.update_path sha t1 leaf_key leaf_hash
         else t1)

/-- Embedding of `SparseMerkleTree::get_root`. -/
def SparseMerkleTree.get_root (t : SparseMerkleTree) : Hash := t.root

/-- Embedding of the loop of `generate_proof`, with explicit fuel: collect the
sibling stored at the current key (default when absent) and step the key by
`hash_nodes(key, Hash::default())`. -/
def genProofAux (sha : List Nat → Hash) :
    Nat → Hash → (Hash → Option Hash) → List Hash
  | 0, _, _ => []
  | n + 1, key, nodes =>
    (nodes key).getD hashDefault ::
      genProofAux sha n (hash_nodes sha key hashDefault) nodes

/-- Embedding of `SparseMerkleTree::generate_proof`: 256 collected siblings,
wrapped in `Some`. -/
def SparseMerkleTree.generate_proof (sha : List Nat → Hash)
    (t : SparseMerkleTree) (pubkey : Pubkey) : Option (List Hash) :=
  some (genProofAux sha 256 (hash_key sha pubkey) t.nodes)

/-- Folding a list of (pubkey, account) inserts over a tree. -/
def insertList (sha : List Nat → Hash) (ops : List (Pubkey × Account))
    (t : SparseMerkleTree) : SparseMerkleTree :=
  ops.foldl (fun acc pa => SparseMerkleTree.insert sha acc pa.1 pa.2) t

end Smt

namespace SmtSolana

/-- The constant `TREE_DEPTH` of `src/smt_solana.rs`. -/
def TREE_DEPTH : Nat := 256

/-- The record type of the position-addressed variant: `TransactionData`
with fields `sender`, `receiver`, `amount`. -/
structure TransactionData where
  sender : Pubkey
  receiver : Pubkey
  amount : Nat

deriving instance DecidableEq for TransactionData

/-- Embedding of `bincode::serialize(transaction_data)` as total byte
production: raw 32-byte sender and receiver then the little-endian amount. -/
def serTransactionBytes (tx : TransactionData) : List Nat :=
  tx.sender ++ tx.receiver ++ u64le tx.amount

/-- Embedding of `bincode::serialize` on `TransactionData`, with the fallible
`Result` signature of the library kept as `Option`. -/
def serTransaction (tx : TransactionData) : Option (List Nat) :=
  (Smt.serPubkey tx.sender).bind fun x1 =>
  (Smt.serPubkey tx.receiver).bind fun x2 =>
  (Smt.serU64 tx.amount).bind fun x3 =>
  some (x1 ++ x2 ++ x3)

/-- The position-addressed tree of `src/smt_solana.rs`: integer-indexed node
map, root, and the next free slot index. -/
structure SparseMerkleTree where
  tree : Nat → Option Hash
  root : Hash
  next_index : Nat

/-- Embedding of `SparseMerkleTree::new`. -/
def SparseMerkleTree.new : SparseMerkleTree :=
  { tree := fun _ => none, root := hashDefault, next_index := 0 }

/-- Embedding of `hash_nodes`: hash of the two digests concatenated in order. -/
def hash_nodes (sha : List Nat → Hash) (left right : Hash) : Hash :=
  sha (left ++ right)

/-- The leaf digest `insert` computes from a transaction. -/
def leafDigest (sha : List Nat → Hash) (tx : TransactionData) : Hash :=
  sha (serTransactionBytes tx)

/-- Embedding of the loop body of the position-addressed `insert`, with
explicit fuel: read the sibling at `index XOR 1`, combine by index parity,
write the original transaction hash at the current index, and halve the
index; returns the final tree map and running value. -/
def insertLoopAux (sha : List Nat → Hash) (transaction_hash : Hash) :
    Nat → Nat → Hash → (Nat → Option Hash) → (Nat → Option Hash) × Hash
  | 0, _, current, tree => (tree, current)
  | n + 1, index, current, tree =>
    let sibling := (tree (index ^^^ 1)).getD hashDefault
    let current2 :=
      if index % 2 = 0 then hash_nodes sha current sibling
      else hash_nodes sha sibling current
    insertLoopAux sha transaction_hash n (index / 2) current2
      (mapInsert tree index transaction_hash)

/-- Embedding of the position-addressed `SparseMerkleTree::insert`: hash the
serialized transaction, run the 256-level loop from `next_index`, overwrite
the root with the final value and advance `next_index` by one (u64). -/
def SparseMerkleTree.insert (sha : List Nat → Hash) (t : SparseMerkleTree)
    (tx : TransactionData) : SparseMerkleTree :=
  let transaction_hash := leafDigest sha tx
  let r := insertLoopAux sha transaction_hash TREE_DEPTH t.next_index
    transaction_hash t.tree
  { tree := r.1, root := r.2, next_index := (t.next_index + 1) % 2 ^ 64 }

/-- Embedding of the position-addressed `insert` with the fallible
serialization step kept explicit: `none` is the panic of
`serialize(transaction_data).unwrap()`. -/
def SparseMerkleTree.insertE (sha : List Nat → Hash) (t : SparseMerkleTree)
    (tx : TransactionData) : Option SparseMerkleTree :=
  match serTransaction tx with
  | none => none
  | some bs =>
    let transaction_hash := sha bs
    let r := insertLoopAux sha transaction_hash TREE_DEPTH t.next_index
      transaction_hash t.tree
    some { tree := r.1, root := r.2, next_index := (t.next_index + 1) % 2 ^ 64 }

/-- Embedding of `SparseMerkleTree::verify_root`. -/
def SparseMerkleTree.verify_root (t : SparseMerkleTree) (root : Hash) : Bool :=
  t.root == root

/-- Embedding of `SparseMerkleTree::get_root`. -/
def SparseMerkleTree.get_root (t : SparseMerkleTree) : Hash := t.root

/-- Folding a list of transaction inserts over a tree. -/
def insertList (sha : List Nat → Hash) (txs : List TransactionData)
    (t : SparseMerkleTree) : SparseMerkleTree :=
  txs.foldl (fun acc tx => SparseMerkleTree.insert sha acc tx) t

end SmtSolana

/-! Concrete instantiation used by witnesses and counterexamples: a simple
computable stand-in for the abstract SHA-256 primitive. -/

/-- A concrete stand-in hash: one-element digest determined by the input bytes.
Its output never equals the 32-byte zero digest (the lengths differ). -/
def shaC : List Nat → Hash := fun x => [x.sum + x.length + 1]

/-- A concrete 32-byte pubkey. -/
def pkC : Pubkey := List.replicate 32 1

/-- A concrete empty account (zero lamports, empty data). -/
def acctEmptyC : Smt.Account := { lamports := 0, data := [], owner := pkC, executable := false, rent_epoch := 0 }

/-- A concrete non-empty account, as in the tests of the repository. -/
def acct1C : Smt.Account := { lamports := 1000, data := [1, 2, 3, 4], owner := pkC, executable := false, rent_epoch := 1 }

/-- The tree obtained by inserting the empty account into a fresh tree: its
stored leaf digest at the key of `pkC` is `ZERO_HASH`. -/
def t1C : Smt.SparseMerkleTree :=
  Smt.SparseMerkleTree.insert shaC Smt.SparseMerkleTree.new pkC acctEmptyC

/-- A content-addressed tree state with one internal node present. -/
def t8C : Smt.SparseMerkleTree :=
  { nodes := fun k => if k = [7] then some [9] else none,
    leaves := fun _ => none, root := hashDefault }

/-- A concrete transaction. -/
def txC : SmtSolana.TransactionData := { sender := pkC, receiver := pkC, amount := 5 }

/-! Helper lemmas about the embedded loops. -/

/-- The proof loop produces, in order, the stored sibling (or default) along
the iterated key chain. -/
theorem genProofAux_ofFn (sha : List Nat → Hash) :
    ∀ (n : Nat) (key : Hash) (nodes : Hash → Option Hash),
      Smt.genProofAux sha n key nodes =
        List.ofFn fun i : Fin n =>
          (nodes ((fun k => Smt.hash_nodes sha k hashDefault)^[i.val] key)).getD hashDefault
  | 0, key, nodes => rfl
  | n + 1, key, nodes => by
    rw [Smt.genProofAux, genProofAux_ofFn sha n, List.ofFn_succ]
    congr 1

/-- The path-update loop never removes an entry from the node map. -/
theorem updatePathAux_fst_isSome (sha : List Nat → Hash) :
    ∀ (n : Nat) (key value : Hash) (nodes : Hash → Option Hash) (k : Hash),
      (nodes k).isSome = true →
      ((Smt.updatePathAux sha n key value nodes).1 k).isSome = true
  | 0, _, _, _, _, h => h
  | n + 1, key, value, nodes, k, h => by
    rw [Smt.updatePathAux]
    apply updatePathAux_fst_isSome
    unfold mapInsert
    by_cases hk : k = key
    · simp [hk]
    · simpa [hk] using h

/-- Under the concrete stand-in hash, the value returned by at least one
iteration of the path-update loop is a one-element digest. -/
theorem updatePathAux_snd_singleton :
    ∀ (n : Nat) (key value : Hash) (nodes : Hash → Option Hash),
      ∃ m, (Smt.updatePathAux shaC (n + 1) key value nodes).2 = [m]
  | 0, key, value, nodes => by
    rw [Smt.updatePathAux, Smt.updatePathAux]
    dsimp only [Smt.hash_nodes, shaC]
    split <;> exact ⟨_, rfl⟩
  | n + 1, key, value, nodes => by
    rw [Smt.updatePathAux]
    exact updatePathAux_snd_singleton n _ _ _

/-- The position-insert loop writes only the transaction hash: every entry of
the final map is either the transaction hash or the original entry. -/
theorem insertLoopAux_write (sha : List Nat → Hash) (leaf : Hash) :
    ∀ (n index : Nat) (current : Hash) (tree : Nat → Option Hash) (j : Nat),
      (SmtSolana.insertLoopAux sha leaf n index current tree).1 j = some leaf ∨
      (SmtSolana.insertLoopAux sha leaf n index current tree).1 j = tree j
  | 0, _, _, _, _ => Or.inr rfl
  | n + 1, index, current, tree, j => by
    rw [SmtSolana.insertLoopAux]
    rcases insertLoopAux_write sha leaf n (index / 2) _ (mapInsert tree index leaf) j with h | h
    · exact Or.inl h
    · rw [h]
      unfold mapInsert
      by_cases hj : j = index
      · simp [hj]
      · simp [hj]

/-- Every index visited by the position-insert loop ends up holding the
transaction hash. -/
theorem insertLoopAux_visited (sha : List Nat → Hash) (leaf : Hash) :
    ∀ (n index : Nat) (current : Hash) (tree : Nat → Option Hash) (i : Nat),
      i < n →
      (SmtSolana.insertLoopAux sha leaf n index current tree).1 (index / 2 ^ i) = some leaf
  | 0, _, _, _, i, h => absurd h (Nat.not_lt_zero i)
  | n + 1, index, current, tree, i, h => by
    rw [SmtSolana.insertLoopAux]
    cases i with
    | zero =>
      simp only [pow_zero, Nat.div_one]
      rcases insertLoopAux_write sha leaf n (index / 2) _ (mapInsert tree index leaf) index with h2 | h2
      · exact h2
      · rw [h2]
        simp [mapInsert]
    | succ j =>
      have hj : j < n := Nat.lt_of_succ_lt_succ h
      have hpow : (2 : Nat) ^ (j + 1) = 2 * 2 ^ j := by ring
      rw [hpow, ← Nat.div_div_eq_div_mul]
      exact insertLoopAux_visited sha leaf n (index / 2) _ (mapInsert tree index leaf) j hj

/-- Folding inserts advances `next_index` by the list length, modulo the u64
range. -/
theorem insertList_next_index (sha : List Nat → Hash) :
    ∀ (txs : List SmtSolana.TransactionData) (t : SmtSolana.SparseMerkleTree),
      t.next_index < 2 ^ 64 →
      (SmtSolana.insertList sha txs t).next_index = (t.next_index + txs.length) % 2 ^ 64
  | [], t, h => by
    simp only [SmtSolana.insertList, List.foldl_nil, List.length_nil, Nat.add_zero]
    exact (Nat.mod_eq_of_lt h).symm
  | tx :: txs, t, h => by
    show (SmtSolana.insertList sha txs (SmtSolana.SparseMerkleTree.insert sha t tx)).next_index = _
    rw [insertList_next_index sha txs _ (Nat.mod_lt _ (by positivity))]
    show ((t.next_index + 1) % 2 ^ 64 + txs.length) % 2 ^ 64 = _
    rw [Nat.mod_add_mod]
    have harith : t.next_index + 1 + txs.length = t.next_index + (tx :: txs).length := by
      simp [List.length_cons]
      omega
    rw [harith]

/-- Unfolding of the content-addressed insert into its two branches. -/
theorem insert_eq_def (sha : List Nat → Hash) (t : Smt.SparseMerkleTree)
    (pubkey : Pubkey) (account : Smt.Account) :
    Smt.SparseMerkleTree.insert sha t pubkey account =
      (if t.leaves (Smt.hash_key sha pubkey) = some Smt.ZERO_HASH then t
       else
         if Smt.leafValue sha account ≠ Smt.ZERO_HASH then
           Smt.SparseMerkleTree.update_path sha
             { t with leaves :=
                 mapInsert t.leaves (Smt.hash_key sha pubkey) (Smt.leafValue sha account) }
             (Smt.hash_key sha pubkey) (Smt.leafValue sha account)
         else
           { t with leaves :=
               mapInsert t.leaves (Smt.hash_key sha pubkey) (Smt.leafValue sha account) }) :=
  rfl

/-- The root after `update_path` is the second component of the loop. -/
theorem update_path_root (sha : List Nat → Hash) (s : Smt.SparseMerkleTree)
    (k v : Hash) :
    (Smt.SparseMerkleTree.update_path sha s k v).root =
      (Smt.updatePathAux sha 256 k v s.nodes).2 := rfl

/-- The node map after `update_path` is the first component of the loop. -/
theorem update_path_nodes (sha : List Nat → Hash) (s : Smt.SparseMerkleTree)
    (k v : Hash) :
    (Smt.SparseMerkleTree.update_path sha s k v).nodes =
      (Smt.updatePathAux sha 256 k v s.nodes).1 := rfl

/-- The leaf map is untouched by `update_path`. -/
theorem update_path_leaves (sha : List Nat → Hash) (s : Smt.SparseMerkleTree)
    (k v : Hash) :
    (Smt.SparseMerkleTree.update_path sha s k v).leaves = s.leaves := rfl

/-- The root after the position-addressed insert is the second component of
its loop, run with fuel 256 from the prior next index. -/
theorem insertS_root (sha : List Nat → Hash) (t : SmtSolana.SparseMerkleTree)
    (tx : SmtSolana.TransactionData) :
    (SmtSolana.SparseMerkleTree.insert sha t tx).root =
      (SmtSolana.insertLoopAux sha (SmtSolana.leafDigest sha tx) 256 t.next_index
        (SmtSolana.leafDigest sha tx) t.tree).2 := rfl

/-- The map after the position-addressed insert is the first component of its
loop. -/
theorem insertS_tree (sha : List Nat → Hash) (t : SmtSolana.SparseMerkleTree)
    (tx : SmtSolana.TransactionData) :
    (SmtSolana.SparseMerkleTree.insert sha t tx).tree =
      (SmtSolana.insertLoopAux sha (SmtSolana.leafDigest sha tx) 256 t.next_index
        (SmtSolana.leafDigest sha tx) t.tree).1 := rfl

/-- The position-addressed insert advances the next index by one, mod u64. -/
theorem insertS_next (sha : List Nat → Hash) (t : SmtSolana.SparseMerkleTree)
    (tx : SmtSolana.TransactionData) :
    (SmtSolana.SparseMerkleTree.insert sha t tx).next_index =
      (t.next_index + 1) % 2 ^ 64 := rfl

/-- The fallible account serializer always succeeds, producing the canonical
bytes: every bincode writer it is built from is infallible. -/
theorem serAccount_eq (a : Smt.Account) :
    Smt.serAccount a = some (Smt.serAccountBytes a) := rfl

/-- The fallible transaction serializer always succeeds, producing the
canonical bytes. -/
theorem serTransaction_eq (tx : SmtSolana.TransactionData) :
    SmtSolana.serTransaction tx = some (SmtSolana.serTransactionBytes tx) := rfl

/-! Claim theorems. -/

/-- Claim C1, counterexample to the stated form: for a tree whose stored leaf
digest at the key of `pkC` is the default digest, inserting a record whose
computed value is non-default does not set `leaves[key] = value` (the code
skips whenever the stored digest is the default, regardless of the new
value), and leaves nodes and root untouched. -/
theorem c1_skip_on_stored_default_cex :
    t1C.leaves (Smt.hash_key shaC pkC) = some Smt.ZERO_HASH ∧
    Smt.leafValue shaC acct1C ≠ Smt.ZERO_HASH ∧
    (Smt.SparseMerkleTree.insert shaC t1C pkC acct1C).leaves (Smt.hash_key shaC pkC) ≠
      some (Smt.leafValue shaC acct1C) ∧
    (Smt.SparseMerkleTree.insert shaC t1C pkC acct1C).nodes = t1C.nodes ∧
    (Smt.SparseMerkleTree.insert shaC t1C pkC acct1C).root = t1C.root :=
  ⟨by decide, by decide, by decide, rfl, rfl⟩

/-- Claim C1, amended: insert performs the skip-and-return (leaving leaves,
nodes and root unchanged) exactly when the stored digest `leaves[key]` is
present and equals the default digest, regardless of the newly computed value;
otherwise it sets `leaves[key] = value` and runs the path-update procedure iff
the value is non-default. -/
theorem c1_skip_iff_stored_default (sha : List Nat → Hash)
    (t : Smt.SparseMerkleTree) (pubkey : Pubkey) (account : Smt.Account) :
    (t.leaves (Smt.hash_key sha pubkey) = some Smt.ZERO_HASH →
      Smt.SparseMerkleTree.insert sha t pubkey account = t) ∧
    (¬ t.leaves (Smt.hash_key sha pubkey) = some Smt.ZERO_HASH →
      (Smt.SparseMerkleTree.insert sha t pubkey account).leaves =
        mapInsert t.leaves (Smt.hash_key sha pubkey) (Smt.leafValue sha account) ∧
      (Smt.leafValue sha account ≠ Smt.ZERO_HASH →
        Smt.SparseMerkleTree.insert sha t pubkey account =
          Smt.SparseMerkleTree.update_path sha
            { t with leaves :=
                mapInsert t.leaves (Smt.hash_key sha pubkey) (Smt.leafValue sha account) }
            (Smt.hash_key sha pubkey) (Smt.leafValue sha account)) ∧
      (Smt.leafValue sha account = Smt.ZERO_HASH →
        (Smt.SparseMerkleTree.insert sha t pubkey account).nodes = t.nodes ∧
        (Smt.SparseMerkleTree.insert sha t pubkey account).root = t.root)) := by
  constructor
  · intro h
    rw [insert_eq_def, if_pos h]
  · intro h
    refine ⟨?_, ?_, ?_⟩
    · rw [insert_eq_def, if_neg h]
      by_cases hv : Smt.leafValue sha account = Smt.ZERO_HASH
      · rw [if_neg (by simp [hv])]
      · rw [if_pos hv, update_path_leaves]
    · intro hv
      rw [insert_eq_def, if_neg h, if_pos hv]
    · intro hv
      rw [insert_eq_def, if_neg h, if_neg (by simp [hv])]
      exact ⟨rfl, rfl⟩

/-- Claim C1 witness: on a concrete tree whose stored leaf digest is the
default, the concrete insert is a skip. -/
theorem c1_skip_iff_stored_default_witness :
    t1C.leaves (Smt.hash_key shaC pkC) = some Smt.ZERO_HASH ∧
    Smt.SparseMerkleTree.insert shaC t1C pkC acct1C = t1C :=
  ⟨by decide, (c1_skip_iff_stored_default shaC t1C pkC acct1C).1 (by decide)⟩

/-- Claim C2, counterexample to the stated form: when the stored leaf digest
at the key is the default digest, insert of a record with non-default computed
value skips, and the root does not equal the result of the 256-iteration
path-update derivation. -/
theorem c2_root_after_insert_cex :
    Smt.leafValue shaC acct1C ≠ Smt.ZERO_HASH ∧
    (Smt.SparseMerkleTree.insert shaC t1C pkC acct1C).root ≠
      (Smt.updatePathAux shaC 256 (Smt.hash_key shaC pkC)
        (Smt.leafValue shaC acct1C) t1C.nodes).2 := by
  refine ⟨by decide, ?_⟩
  obtain ⟨m, hm⟩ := updatePathAux_snd_singleton 255 (Smt.hash_key shaC pkC)
    (Smt.leafValue shaC acct1C) t1C.nodes
  have h256 : (256 : Nat) = 255 + 1 := by norm_num
  rw [h256, hm]
  have hroot : (Smt.SparseMerkleTree.insert shaC t1C pkC acct1C).root = hashDefault := rfl
  rw [hroot]
  intro hcontra
  simpa [hashDefault] using congrArg List.length hcontra

/-- Claim C2, amended: after insert of a record whose computed leaf value is
non-default, provided the stored leaf digest for the identifier is not the
default digest (otherwise the insert skips), the root and node map equal the
result of the 256-iteration path-update loop seeded with the derived key and
the computed value over the prior node map. -/
theorem c2_root_eq_update_path (sha : List Nat → Hash)
    (t : Smt.SparseMerkleTree) (pubkey : Pubkey) (account : Smt.Account)
    (hstored : ¬ t.leaves (Smt.hash_key sha pubkey) = some Smt.ZERO_HASH)
    (hv : Smt.leafValue sha account ≠ Smt.ZERO_HASH) :
    (Smt.SparseMerkleTree.insert sha t pubkey account).root =
      (Smt.updatePathAux sha 256 (Smt.hash_key sha pubkey)
        (Smt.leafValue sha account) t.nodes).2 ∧
    (Smt.SparseMerkleTree.insert sha t pubkey account).nodes =
      (Smt.updatePathAux sha 256 (Smt.hash_key sha pubkey)
        (Smt.leafValue sha account) t.nodes).1 := by
  have h1 : Smt.SparseMerkleTree.insert sha t pubkey account =
      Smt.SparseMerkleTree.update_path sha
        { t with leaves :=
            mapInsert t.leaves (Smt.hash_key sha pubkey) (Smt.leafValue sha account) }
        (Smt.hash_key sha pubkey) (Smt.leafValue sha account) := by
    rw [insert_eq_def, if_neg hstored, if_pos hv]
  rw [h1, update_path_root, update_path_nodes]
  exact ⟨rfl, rfl⟩

/-- Claim C2 witness: a fresh tree and a non-empty account satisfy both
hypotheses, and the root after the concrete insert is the loop result. -/
theorem c2_root_eq_update_path_witness :
    ¬ Smt.SparseMerkleTree.new.leaves (Smt.hash_key shaC pkC) = some Smt.ZERO_HASH ∧
    Smt.leafValue shaC acct1C ≠ Smt.ZERO_HASH ∧
    (Smt.SparseMerkleTree.insert shaC Smt.SparseMerkleTree.new pkC acct1C).root =
      (Smt.updatePathAux shaC 256 (Smt.hash_key shaC pkC)
        (Smt.leafValue shaC acct1C) Smt.SparseMerkleTree.new.nodes).2 :=
  ⟨by decide, by decide,
    (c2_root_eq_update_path shaC Smt.SparseMerkleTree.new pkC acct1C
      (by decide) (by decide)).1⟩

/-- Claim C3: for every identifier and every tree state, generate_proof
returns a non-absent result, namely exactly the 256-element sequence whose
i-th element is the stored node (or default digest) at the i-th iterated key,
where the key chain starts at the hashed identifier and steps by combining
with the default digest; the embedding is a pure function of the tree, so no
state is mutated. -/
theorem c3_generate_proof_total (sha : List Nat → Hash)
    (t : Smt.SparseMerkleTree) (pubkey : Pubkey) :
    Smt.SparseMerkleTree.generate_proof sha t pubkey =
      some (List.ofFn fun i : Fin 256 =>
        (t.nodes ((fun k => Smt.hash_nodes sha k hashDefault)^[i.val]
          (Smt.hash_key sha pubkey))).getD hashDefault) ∧
    ((Smt.SparseMerkleTree.generate_proof sha t pubkey).getD []).length = 256 := by
  constructor
  · simp only [Smt.SparseMerkleTree.generate_proof]
    rw [genProofAux_ofFn sha 256]
  · simp only [Smt.SparseMerkleTree.generate_proof, Option.getD_some]
    rw [genProofAux_ofFn sha 256]
    exact List.length_ofFn _

/-- Claim C4: the position-addressed insert computes the leaf digest from the
serialized transaction, runs the 256-iteration loop from `next_index` (sibling
at index XOR 1 or default, combine by index parity, write the original leaf
digest at the visited index, halve the index), overwrites the root with the
final value, and every visited index of the final map holds the original leaf
digest. -/
theorem c4_position_insert_spec (sha : List Nat → Hash)
    (t : SmtSolana.SparseMerkleTree) (tx : SmtSolana.TransactionData) :
    ((SmtSolana.SparseMerkleTree.insert sha t tx).root =
      (SmtSolana.insertLoopAux sha (SmtSolana.leafDigest sha tx) 256 t.next_index
        (SmtSolana.leafDigest sha tx) t.tree).2) ∧
    ((SmtSolana.SparseMerkleTree.insert sha t tx).tree =
      (SmtSolana.insertLoopAux sha (SmtSolana.leafDigest sha tx) 256 t.next_index
        (SmtSolana.leafDigest sha tx) t.tree).1) ∧
    (∀ i, i < 256 →
      (SmtSolana.SparseMerkleTree.insert sha t tx).tree (t.next_index / 2 ^ i) =
        some (SmtSolana.leafDigest sha tx)) := by
  refine ⟨insertS_root sha t tx, insertS_tree sha t tx, ?_⟩
  intro i hi
  rw [insertS_tree sha t tx]
  exact insertLoopAux_visited sha (SmtSolana.leafDigest sha tx) 256 t.next_index
    (SmtSolana.leafDigest sha tx) t.tree i hi

/-- Claim C4 witness: on a fresh tree and a concrete transaction, the visited
index at level 0 holds the leaf digest. -/
theorem c4_position_insert_spec_witness :
    0 < 256 ∧
    (SmtSolana.SparseMerkleTree.insert shaC SmtSolana.SparseMerkleTree.new txC).tree
      (SmtSolana.SparseMerkleTree.new.next_index / 2 ^ 0) =
      some (SmtSolana.leafDigest shaC txC) :=
  ⟨by decide,
    (c4_position_insert_spec shaC SmtSolana.SparseMerkleTree.new txC).2.2 0 (by decide)⟩

/-- Claim C5: both variants are deterministic: two trees each created empty
and built by the same sequence of inserts have identical roots and identical
leaf, node and tree maps. -/
theorem c5_determinism (sha : List Nat → Hash)
    (ops1 ops2 : List (Pubkey × Smt.Account))
    (txs1 txs2 : List SmtSolana.TransactionData)
    (hops : ops1 = ops2) (htxs : txs1 = txs2) :
    (Smt.insertList sha ops1 Smt.SparseMerkleTree.new).root =
      (Smt.insertList sha ops2 Smt.SparseMerkleTree.new).root ∧
    (Smt.insertList sha ops1 Smt.SparseMerkleTree.new).leaves =
      (Smt.insertList sha ops2 Smt.SparseMerkleTree.new).leaves ∧
    (Smt.insertList sha ops1 Smt.SparseMerkleTree.new).nodes =
      (Smt.insertList sha ops2 Smt.SparseMerkleTree.new).nodes ∧
    (SmtSolana.insertList sha txs1 SmtSolana.SparseMerkleTree.new).root =
      (SmtSolana.insertList sha txs2 SmtSolana.SparseMerkleTree.new).root ∧
    (SmtSolana.insertList sha txs1 SmtSolana.SparseMerkleTree.new).tree =
      (SmtSolana.insertList sha txs2 SmtSolana.SparseMerkleTree.new).tree ∧
    (SmtSolana.insertList sha txs1 SmtSolana.SparseMerkleTree.new).next_index =
      (SmtSolana.insertList sha txs2 SmtSolana.SparseMerkleTree.new).next_index := by
  subst hops
  subst htxs
  exact ⟨rfl, rfl, rfl, rfl, rfl, rfl⟩

/-- Claim C5 witness: the same concrete one-element sequences on both variants
give equal roots. -/
theorem c5_determinism_witness :
    ([(pkC, acct1C)] : List (Pubkey × Smt.Account)) = [(pkC, acct1C)] ∧
    (Smt.insertList shaC [(pkC, acct1C)] Smt.SparseMerkleTree.new).root =
      (Smt.insertList shaC [(pkC, acct1C)] Smt.SparseMerkleTree.new).root :=
  ⟨rfl, (c5_determinism shaC [(pkC, acct1C)] [(pkC, acct1C)] [txC] [txC] rfl rfl).1⟩

/-- Claim C6, counterexample to the stated form: after 2 ^ 64 inserts on a
fresh tree, `next_index` is 0, not 2 ^ 64: the u64 counter wraps. -/
theorem c6_next_index_wraps_cex :
    (SmtSolana.insertList shaC (List.replicate (2 ^ 64) txC)
      SmtSolana.SparseMerkleTree.new).next_index ≠ 2 ^ 64 := by
  have h := insertList_next_index shaC (List.replicate (2 ^ 64) txC)
    SmtSolana.SparseMerkleTree.new (by decide)
  rw [h, List.length_replicate]
  simp only [SmtSolana.SparseMerkleTree.new]
  omega

/-- Claim C6, amended: `next_index` starts at 0 and advances by exactly 1
modulo 2 ^ 64 (u64 wrapping) on every insert, and no operation decrements it
otherwise; after n inserts on a fresh tree it equals n mod 2 ^ 64, hence
equals n for every n below 2 ^ 64, and verify_root(get_root()) is true. -/
theorem c6_next_index_spec (sha : List Nat → Hash)
    (txs : List SmtSolana.TransactionData) :
    SmtSolana.SparseMerkleTree.new.next_index = 0 ∧
    (∀ (t : SmtSolana.SparseMerkleTree) (tx : SmtSolana.TransactionData),
      (SmtSolana.SparseMerkleTree.insert sha t tx).next_index =
        (t.next_index + 1) % 2 ^ 64) ∧
    (SmtSolana.insertList sha txs SmtSolana.SparseMerkleTree.new).next_index =
      txs.length % 2 ^ 64 ∧
    (txs.length < 2 ^ 64 →
      (SmtSolana.insertList sha txs SmtSolana.SparseMerkleTree.new).next_index =
        txs.length) ∧
    SmtSolana.SparseMerkleTree.verify_root
      (SmtSolana.insertList sha txs SmtSolana.SparseMerkleTree.new)
      (SmtSolana.SparseMerkleTree.get_root
        (SmtSolana.insertList sha txs SmtSolana.SparseMerkleTree.new)) = true := by
  have hlist := insertList_next_index sha txs SmtSolana.SparseMerkleTree.new (by decide)
  refine ⟨rfl, fun t tx => insertS_next sha t tx, ?_, ?_, ?_⟩
  · rw [hlist]
    show (0 + txs.length) % 2 ^ 64 = txs.length % 2 ^ 64
    rw [Nat.zero_add]
  · intro hlen
    rw [hlist]
    show (0 + txs.length) % 2 ^ 64 = txs.length
    rw [Nat.zero_add]
    exact Nat.mod_eq_of_lt hlen
  · simp [SmtSolana.SparseMerkleTree.verify_root, SmtSolana.SparseMerkleTree.get_root]

/-- Claim C6 witness: one concrete insert gives next_index 1. -/
theorem c6_next_index_spec_witness :
    ([txC].length < 2 ^ 64) ∧
    (SmtSolana.insertList shaC [txC] SmtSolana.SparseMerkleTree.new).next_index =
      [txC].length :=
  ⟨by decide, (c6_next_index_spec shaC [txC]).2.2.2.1 (by decide)⟩

/-- Claim C7: whenever insert computes a leaf value equal to the default
digest (in particular for a record with zero balance and empty payload), the
node map and the root are unchanged by that insert; inserting such a record
into a fresh tree leaves the root equal to the default digest. -/
theorem c7_default_leaf_frames (sha : List Nat → Hash)
    (t : Smt.SparseMerkleTree) (pubkey : Pubkey) (account : Smt.Account)
    (h : Smt.leafValue sha account = Smt.ZERO_HASH) :
    (Smt.SparseMerkleTree.insert sha t pubkey account).nodes = t.nodes ∧
    (Smt.SparseMerkleTree.insert sha t pubkey account).root = t.root ∧
    (Smt.SparseMerkleTree.insert sha Smt.SparseMerkleTree.new pubkey account).root =
      Smt.ZERO_HASH := by
  have hgen : ∀ s : Smt.SparseMerkleTree,
      (Smt.SparseMerkleTree.insert sha s pubkey account).nodes = s.nodes ∧
      (Smt.SparseMerkleTree.insert sha s pubkey account).root = s.root := by
    intro s
    rw [insert_eq_def]
    by_cases hs : s.leaves (Smt.hash_key sha pubkey) = some Smt.ZERO_HASH
    · rw [if_pos hs]
      exact ⟨rfl, rfl⟩
    · rw [if_neg hs, if_neg (by simp [h])]
      exact ⟨rfl, rfl⟩
  refine ⟨(hgen t).1, (hgen t).2, ?_⟩
  rw [(hgen Smt.SparseMerkleTree.new).2]
  rfl

/-- Claim C7 witness: inserting the concrete empty account into a fresh tree
leaves nodes and root unchanged and the root is the default digest. -/
theorem c7_default_leaf_frames_witness :
    Smt.leafValue shaC acctEmptyC = Smt.ZERO_HASH ∧
    (Smt.SparseMerkleTree.insert shaC Smt.SparseMerkleTree.new pkC acctEmptyC).root =
      Smt.ZERO_HASH :=
  ⟨by decide,
    (c7_default_leaf_frames shaC Smt.SparseMerkleTree.new pkC acctEmptyC (by decide)).2.2⟩

/-- Claim C8: no operation of the content-addressed tree evicts a key from
the node map: any key present in `nodes` before an insert is still present
after it (generate_proof and get_root are pure functions of the tree in this
embedding and change nothing). -/
theorem c8_nodes_never_evicted (sha : List Nat → Hash)
    (t : Smt.SparseMerkleTree) (pubkey : Pubkey) (account : Smt.Account)
    (k : Hash) (h : (t.nodes k).isSome = true) :
    ((Smt.SparseMerkleTree.insert sha t pubkey account).nodes k).isSome = true := by
  rw [insert_eq_def]
  by_cases hs : t.leaves (Smt.hash_key sha pubkey) = some Smt.ZERO_HASH
  · rw [if_pos hs]
    exact h
  · rw [if_neg hs]
    by_cases hv : Smt.leafValue sha account ≠ Smt.ZERO_HASH
    · rw [if_pos hv, update_path_nodes]
      exact updatePathAux_fst_isSome sha 256 _ _ _ k h
    · rw [if_neg hv]
      exact h

/-- Claim C8 witness: a concrete tree with one stored internal node keeps it
across an insert. -/
theorem c8_nodes_never_evicted_witness :
    (t8C.nodes [7]).isSome = true ∧
    ((Smt.SparseMerkleTree.insert shaC t8C pkC acct1C).nodes [7]).isSome = true :=
  ⟨by decide, c8_nodes_never_evicted shaC t8C pkC acct1C [7] (by decide)⟩

/-- Claim C9: after every insert on a position-addressed tree whose
`next_index` is in u64 range, slot 0 of the map holds the leaf digest of the
transaction just inserted (the loop halves the index to 0 within 64 of its
256 iterations and rewrites slot 0 with the current leaf digest). -/
theorem c9_slot_zero_latest_leaf (sha : List Nat → Hash)
    (t : SmtSolana.SparseMerkleTree) (tx : SmtSolana.TransactionData)
    (h : t.next_index < 2 ^ 64) :
    (SmtSolana.SparseMerkleTree.insert sha t tx).tree 0 =
      some (SmtSolana.leafDigest sha tx) := by
  have h64 := insertLoopAux_visited sha (SmtSolana.leafDigest sha tx) 256
    t.next_index (SmtSolana.leafDigest sha tx) t.tree 64 (by norm_num)
  rw [Nat.div_eq_of_lt h] at h64
  exact h64

/-- Claim C9 witness: a fresh tree has next_index in range, and slot 0 after
the concrete insert holds the leaf digest of that transaction. -/
theorem c9_slot_zero_latest_leaf_witness :
    SmtSolana.SparseMerkleTree.new.next_index < 2 ^ 64 ∧
    (SmtSolana.SparseMerkleTree.insert shaC SmtSolana.SparseMerkleTree.new txC).tree 0 =
      some (SmtSolana.leafDigest shaC txC) :=
  ⟨by decide,
    c9_slot_zero_latest_leaf shaC SmtSolana.SparseMerkleTree.new txC (by decide)⟩

/-- Claim C10: insert never reaches the panic of the serialization unwrap in
either variant: the fallible embedding of insert always returns the result of
the total one. -/
theorem c10_insert_never_panics (sha : List Nat → Hash)
    (t : Smt.SparseMerkleTree) (pubkey : Pubkey) (account : Smt.Account)
    (t2 : SmtSolana.SparseMerkleTree) (tx : SmtSolana.TransactionData) :
    Smt.SparseMerkleTree.insertE sha t pubkey account =
      some (Smt.SparseMerkleTree.insert sha t pubkey account) ∧
    SmtSolana.SparseMerkleTree.insertE sha t2 tx =
      some (SmtSolana.SparseMerkleTree.insert sha t2 tx) := by
  constructor
  · by_cases h : account.lamports = 0 ∧ account.data = []
    · simp only [Smt.SparseMerkleTree.insertE, Smt.SparseMerkleTree.insert,
        Smt.leafValue, if_pos h]
    · simp only [Smt.SparseMerkleTree.insertE, Smt.SparseMerkleTree.insert,
        Smt.leafValue, if_neg h, serAccount_eq, Smt.hash_account]
      rfl
  · rfl

end MerkleSvm
